import Mathlib

/-!
Verification of the Alfis core (blockchain.rs, transaction.rs): a shallow
embedding of the block/transaction data model, block validation, the append
path, startup recovery, and domain-availability resolution, with theorems
settling the specification claims.

External collaborators (the SHA-256 hash of the `crypto` crate, the JSON
renderer of `serde_json`, the SQLite driver) are abstracted: hash functions
are parameters, the transaction codec is modelled at the JSON-value level,
and SQLite column values are modelled by a dynamically typed `Col` type with
typed fallible reads, matching the `read::<T>().unwrap()` calls in the source.
-/

set_option autoImplicit false

/-- Modelled from the spec: the Byte Buffer type of `keys.rs` (not under
`src/`) — "an immutable, fixed- or variable-length sequence of bytes",
with construction from raw bytes and value equality.  Bytes are `Fin 256`
as in Rust's `Vec<u8>`. -/
structure Bytes where
  data : List (Fin 256)
deriving DecidableEq

/-- Modelled from the spec: the "canonical all-zero value" used when the
`hash` field is reset before rehashing (`Bytes::default()` in the source);
its exact length is irrelevant to every claim, only that it is one fixed
distinguished value. -/
def Bytes.defaultVal : Bytes := ⟨[]⟩

/-- Modelled from the spec: the Keystore collaborator, which "exposes
`get_public() -> public-key bytes`". -/
structure Keystore where
  public : Bytes
deriving DecidableEq

def Keystore.get_public (k : Keystore) : Bytes := k.public

/-- The `Transaction` struct of `transaction.rs`: identity hash, method,
opaque data, claimant public key and signature. -/
structure Transaction where
  identity : Bytes
  method : List Char
  data : List Char
  pub_key : Bytes
  signature : Bytes
deriving DecidableEq

/-- JSON values, the target of the transaction codec.  The lexical layer
(rendering to / parsing from a string) belongs to `serde_json` and is
external; the codec is modelled at this value level. -/
inductive Json where
  | str : List Char → Json
  | num : Int → Json
  | arr : List Json → Json
  | obj : List (List Char × Json) → Json

/-- Modelled from the spec: serialization of a Byte Buffer, the default
`serde` encoding of a `Vec<u8>` — a JSON array of the byte values. -/
def bytesJson (b : Bytes) : Json :=
  .arr (b.data.map fun x => .num x.val)

/-- Modelled from the spec: deserialization of one byte — a JSON number in
`[0, 256)`; anything else is rejected. -/
def parseByte : Json → Option (Fin 256)
  | .num n => if h : 0 ≤ n ∧ n < 256 then some ⟨n.toNat, by omega⟩ else none
  | _ => none

/-- Modelled from the spec: deserialization of a Byte Buffer from a JSON
array of byte values. -/
def parseBytes : Json → Option Bytes
  | .arr xs => (xs.mapM parseByte).map Bytes.mk
  | _ => none

/-- The custom `Serialize for Transaction` impl: it declares a struct length
of 3 but then emits five `serialize_field` calls (identity, method, data,
pub_key, signature); `serde_json` ignores the declared length, so the
emitted JSON object carries all five fields in that order. -/
def Transaction.to_json (t : Transaction) : Json :=
  .obj [("identity".toList, bytesJson t.identity),
        ("method".toList, .str t.method),
        ("data".toList, .str t.data),
        ("pub_key".toList, bytesJson t.pub_key),
        ("signature".toList, bytesJson t.signature)]

/-- Field lookup in a JSON object, first occurrence wins. -/
def jsonLookup (fields : List (List Char × Json)) (name : List Char) : Option Json :=
  (fields.find? fun p => p.1 = name).map Prod.snd

/-- Deserialization of a string field. -/
def parseStr : Json → Option (List Char)
  | .str s => some s
  | _ => none

/-- The derived `Deserialize` for `Transaction` (as invoked by
`Transaction::from_json` through `serde_json::from_str`): a JSON object in
which each of the five fields is present with a value of the right shape
yields the transaction; anything else yields `none`. -/
def Transaction.from_json (j : Json) : Option Transaction :=
  match j with
  | .obj fields => do
      let identity ← jsonLookup fields "identity".toList >>= parseBytes
      let method ← jsonLookup fields "method".toList >>= parseStr
      let data ← jsonLookup fields "data".toList >>= parseStr
      let pub_key ← jsonLookup fields "pub_key".toList >>= parseBytes
      let signature ← jsonLookup fields "signature".toList >>= parseBytes
      pure ⟨identity, method, data, pub_key, signature⟩
  | _ => none

lemma parseByte_num_val (x : Fin 256) : parseByte (.num x.val) = some x := by
  have h : (0 : Int) ≤ x.val ∧ (x.val : Int) < 256 := by
    constructor
    · exact Int.ofNat_nonneg _
    · exact_mod_cast x.isLt
  simp only [parseByte, dif_pos h, Option.some_inj]
  apply Fin.ext
  simp

lemma parseBytes_bytesJson (b : Bytes) : parseBytes (bytesJson b) = some b := by
  obtain ⟨l⟩ := b
  simp only [parseBytes, bytesJson]
  have h : (l.map fun x => Json.num x.val).mapM parseByte = some l := by
    induction l with
    | nil => rfl
    | cons x xs ih =>
        simp only [List.map_cons, List.mapM_cons, parseByte_num_val, ih,
          Option.pure_def, Option.bind_eq_bind, Option.some_bind]
  rw [h]
  rfl

lemma jsonLookup_cons_eq (name : List Char) (v : Json) (rest : List (List Char × Json)) :
    jsonLookup ((name, v) :: rest) name = some v := by
  simp [jsonLookup, List.find?]

lemma jsonLookup_cons_ne (name k : List Char) (v : Json) (rest : List (List Char × Json))
    (h : k ≠ name) : jsonLookup ((k, v) :: rest) name = jsonLookup rest name := by
  simp [jsonLookup, List.find?, h]

/-- Claim C10: transaction serialization round-trips — for every
`Transaction` `t`, deserializing the value emitted by the custom serializer
(which declares a field count of 3 yet emits all five fields) reconstructs
`t` exactly. -/
theorem c10_transaction_roundtrip (t : Transaction) :
    Transaction.from_json t.to_json = some t := by
  obtain ⟨i, m, d, p, s⟩ := t
  simp only [Transaction.to_json, Transaction.from_json]
  rw [jsonLookup_cons_eq,
      jsonLookup_cons_ne _ _ _ _ (by decide), jsonLookup_cons_eq,
      jsonLookup_cons_ne _ _ _ _ (by decide), jsonLookup_cons_ne _ _ _ _ (by decide),
      jsonLookup_cons_eq,
      jsonLookup_cons_ne _ _ _ _ (by decide), jsonLookup_cons_ne _ _ _ _ (by decide),
      jsonLookup_cons_ne _ _ _ _ (by decide), jsonLookup_cons_eq,
      jsonLookup_cons_ne _ _ _ _ (by decide), jsonLookup_cons_ne _ _ _ _ (by decide),
      jsonLookup_cons_ne _ _ _ _ (by decide), jsonLookup_cons_ne _ _ _ _ (by decide),
      jsonLookup_cons_eq]
  simp [parseBytes_bytesJson, parseStr]

/-- The most recent row of the `transactions` table matching the identity
hash of `domain` — the row returned by
`SELECT pub_key FROM transactions WHERE identity = ? ORDER BY id DESC LIMIT 1`
when the table (`txs`) is kept in insertion (= `id`) order. -/
def lastClaim (Hid : List Char → Bytes) (txs : List Transaction)
    (domain : List Char) : Option Transaction :=
  txs.reverse.find? fun t => t.identity = Hid domain

/-- The ownership `while` loop of `is_domain_available`: it inspects the (at
most one, by `LIMIT 1`) returned row and returns `false` when its recorded
public key differs from the claimant's. -/
def owner_check (Hid : List Char → Bytes) (txs : List Transaction)
    (domain : List Char) (k : Bytes) : Bool :=
  match lastClaim Hid txs domain with
  | none => true
  | some t => t.pub_key = k

/-- The first element produced by `domain.rsplitn(2, ".")` when a separator
is present: the characters after the last separator. -/
def zone_of (s : List Char) : List Char :=
  (s.reverse.takeWhile fun c => c ≠ '.').reverse

/-- The second element produced by `domain.rsplitn(2, ".")` when a separator
is present: the characters before the last separator. -/
def local_of (s : List Char) : List Char :=
  ((s.reverse.dropWhile fun c => c ≠ '.').drop 1).reverse

/-- Rust's `s.rsplitn(2, ".").collect::<Vec<_>>()`: at most two parts, split
at the last separator, suffix first. -/
def rsplitn2 (s : List Char) : List (List Char) :=
  if ('.') ∈ s then [zone_of s, local_of s] else [s]

/-- The `is_domain_available` method of `blockchain.rs`, with the external
SHA-256 identity hash abstracted as `Hid` and the `transactions` table
materialized as the list `txs` in `id` order. -/
def is_domain_available (Hid : List Char → Bytes) (txs : List Transaction)
    (domain : List Char) (keystore : Keystore) : Bool :=
  if domain = [] then false
  else if owner_check Hid txs domain keystore.get_public then
    let parts := rsplitn2 domain
    if parts.length > 1 then
      if ('.') ∈ parts.getLast! then false
      else
        let zone_hash := Hid parts.head!
        txs.any fun t => t.identity = zone_hash
    else true
  else false

/-- Concrete identity hash used for witnesses and counterexamples: the byte
string of the name's character codes (injective on ASCII names). -/
def hidC : List Char → Bytes :=
  fun s => ⟨s.map fun c => (⟨c.toNat % 256, Nat.mod_lt _ (by norm_num)⟩ : Fin 256)⟩

def keyOne : Bytes := ⟨[1]⟩

def keyTwo : Bytes := ⟨[2]⟩

/-- A registration transaction on name `n` by key `k`, as stored in the
`transactions` table. -/
def mkClaim (n : List Char) (k : Bytes) : Transaction :=
  ⟨hidC n, "domain".toList, [], k, ⟨[]⟩⟩

lemma getLast_bang_pair (x y : List Char) : ([x, y] : List (List Char)).getLast! = y := rfl

lemma head_bang_pair (x y : List Char) : ([x, y] : List (List Char)).head! = x := rfl

lemma owner_check_eq_false (Hid : List Char → Bytes) (txs : List Transaction)
    (domain : List Char) (k : Bytes) (t : Transaction)
    (hfind : lastClaim Hid txs domain = some t) (hk : t.pub_key ≠ k) :
    owner_check Hid txs domain k = false := by
  simp [owner_check, hfind, hk]

lemma owner_check_eq_true (Hid : List Char → Bytes) (txs : List Transaction)
    (domain : List Char) (k : Bytes)
    (hall : ∀ t ∈ txs, t.identity = Hid domain → t.pub_key = k) :
    owner_check Hid txs domain k = true := by
  unfold owner_check
  cases hfind : lastClaim Hid txs domain with
  | none => rfl
  | some t =>
      have hmem : t ∈ txs.reverse := List.mem_of_find?_eq_some hfind
      have hid : t.identity = Hid domain := by
        have := List.find?_some hfind
        simpa using this
      have := hall t (List.mem_reverse.mp hmem) hid
      simp [this]

/-- Claim C1 as frozen is false on the code: the ownership query ends in
`ORDER BY id DESC LIMIT 1`, so only the most recent matching row is
examined.  Here the history holds an older claim on "alice" by a different
key and a newer claim by the claimant, and the name is still reported
available; moreover a name containing a separator whose only claim is the
claimant's own is reported unavailable (its zone is unregistered). -/
theorem c1_counterexample :
    (∃ t ∈ [mkClaim "alice".toList keyTwo, mkClaim "alice".toList keyOne],
        t.identity = hidC "alice".toList ∧ t.pub_key ≠ keyOne) ∧
    is_domain_available hidC [mkClaim "alice".toList keyTwo, mkClaim "alice".toList keyOne]
      "alice".toList ⟨keyOne⟩ = true ∧
    (∀ t ∈ [mkClaim "sub.zone".toList keyOne], t.pub_key = keyOne) ∧
    is_domain_available hidC [mkClaim "sub.zone".toList keyOne]
      "sub.zone".toList ⟨keyOne⟩ = false := by
  refine ⟨⟨mkClaim "alice".toList keyTwo, by decide, by decide, by decide⟩, by decide, by decide, by decide⟩

/-- Claim C1 (amended): for every non-empty name, `is_domain_available`
returns false whenever the most recent row in the transaction history
matching the name's identity hash records a public key different from the
claimant's; and when every matching claim on a separator-free name (in
particular, the only existing claim) was made with the claimant's own
public key, the name remains available. -/
theorem c1_ownership_check (Hid : List Char → Bytes) (txs : List Transaction)
    (domain : List Char) (ks : Keystore) (hne : domain ≠ []) :
    (∀ t, lastClaim Hid txs domain = some t → t.pub_key ≠ ks.get_public →
      is_domain_available Hid txs domain ks = false) ∧
    ((('.') ∉ domain) →
      (∀ t ∈ txs, t.identity = Hid domain → t.pub_key = ks.get_public) →
      is_domain_available Hid txs domain ks = true) := by
  constructor
  · intro t hfind hk
    have hoc := owner_check_eq_false Hid txs domain ks.get_public t hfind hk
    simp [is_domain_available, hoc]
  · intro hdot hall
    have hoc := owner_check_eq_true Hid txs domain ks.get_public hall
    simp [is_domain_available, hne, hoc, rsplitn2, hdot]

/-- Witness for the amended C1 at a concrete input: a single claim on
"alice" by the claimant's own key leaves "alice" available to them. -/
theorem c1_ownership_check_witness :
    "alice".toList ≠ [] ∧
    is_domain_available hidC [mkClaim "alice".toList keyOne] "alice".toList ⟨keyOne⟩ = true := by
  refine ⟨by decide, ?_⟩
  exact (c1_ownership_check hidC [mkClaim "alice".toList keyOne] "alice".toList ⟨keyOne⟩
    (by decide)).2 (by decide) (by decide)

/-- Claim C4: for a name containing the zone separator that passes the
ownership check, `is_domain_available` returns false when the remaining
(local) part still contains a separator, and otherwise returns true exactly
when the transaction history holds at least one row whose identity is the
hash of the zone part — with no condition on which public key made that
zone claim. -/
theorem c4_zone_existence_gate (Hid : List Char → Bytes) (txs : List Transaction)
    (domain : List Char) (ks : Keystore) (hdot : ('.') ∈ domain)
    (hown : owner_check Hid txs domain ks.get_public = true) :
    is_domain_available Hid txs domain ks =
      (if ('.') ∈ local_of domain then false
       else txs.any fun t => t.identity = Hid (zone_of domain)) := by
  have hne : domain ≠ [] := by
    rintro rfl
    simp at hdot
  simp [is_domain_available, hne, hown, rsplitn2, hdot, getLast_bang_pair, head_bang_pair]

/-- Witness for C4 at a concrete input: "sub.zone" with the zone "zone"
claimed by a key different from the claimant's is still available. -/
theorem c4_zone_existence_gate_witness :
    ('.') ∈ "sub.zone".toList ∧
    owner_check hidC [mkClaim "zone".toList keyTwo] "sub.zone".toList keyOne = true ∧
    is_domain_available hidC [mkClaim "zone".toList keyTwo] "sub.zone".toList ⟨keyOne⟩ =
      (if ('.') ∈ local_of "sub.zone".toList then false
       else [mkClaim "zone".toList keyTwo].any fun t =>
         t.identity = hidC (zone_of "sub.zone".toList)) := by
  refine ⟨by decide, by decide, ?_⟩
  exact c4_zone_existence_gate hidC [mkClaim "zone".toList keyTwo] "sub.zone".toList
    ⟨keyOne⟩ (by decide) (by decide)

/-- Modelled from the spec: the `Block` struct (its source file is not under
`src/`; the spec lists its fields — index, timestamp, chain metadata,
proof-of-work fields, optional transaction, previous hash, own hash). -/
structure Block where
  index : Nat
  timestamp : Int
  chain_name : List Char
  version_flags : Nat
  difficulty : Nat
  random : Nat
  nonce : Nat
  transaction : Option Transaction
  prev_block_hash : Bytes
  hash : Bytes
deriving DecidableEq

/-- The `Block::from_all_params` constructor, with the parameter order used
at the call site in `get_block_from_statement`. -/
def Block.from_all_params (index : Nat) (timestamp : Int) (chain_name : List Char)
    (version_flags : Nat) (difficulty : Nat) (random : Nat) (nonce : Nat)
    (prev_block_hash : Bytes) (hash : Bytes) (transaction : Option Transaction) : Block :=
  ⟨index, timestamp, chain_name, version_flags, difficulty, random, nonce,
   transaction, prev_block_hash, hash⟩

/-- The `check_block_hash` function: clear the `hash` field to the default
value, serialize and hash the copy (the composition of `serde_json`
serialization and `Block::hash`, abstracted as `H`), and compare with the
stored `hash`. -/
def check_block_hash (H : Block → Bytes) (block : Block) : Bool :=
  H { block with hash := Bytes.defaultVal } = block.hash

/-- The `check_block` function: self-hash check first, then — only when a
previous block exists — the linkage check. -/
def check_block (H : Block → Bytes) (block : Block) (prev_block : Option Block) : Bool :=
  if !check_block_hash H block then false
  else
    match prev_block with
    | none => true
    | some p => block.prev_block_hash = p.hash

lemma check_block_eq_true_iff (H : Block → Bytes) (block : Block) (prev_block : Option Block) :
    check_block H block prev_block = true ↔
      (H { block with hash := Bytes.defaultVal } = block.hash ∧
        (prev_block = none ∨
          ∃ p, prev_block = some p ∧ block.prev_block_hash = p.hash)) := by
  cases prev_block with
  | none => simp [check_block, check_block_hash]
  | some p =>
      simp [check_block, check_block_hash]

/-- A dynamically typed SQLite column value (storage classes INTEGER, TEXT,
BLOB, NULL); `read::<T>` in the `sqlite` crate is a typed read returning a
`Result`, modelled as `Option` by the `read*` functions below. -/
inductive Col where
  | int : Int → Col
  | text : List Char → Col
  | blob : List (Fin 256) → Col
  | null : Col
deriving DecidableEq

def read_int (row : List Col) (i : Nat) : Option Int :=
  match row.get? i with
  | some (.int v) => some v
  | _ => none

def read_text (row : List Col) (i : Nat) : Option (List Char) :=
  match row.get? i with
  | some (.text v) => some v
  | _ => none

def read_blob (row : List Col) (i : Nat) : Option (List (Fin 256)) :=
  match row.get? i with
  | some (.blob v) => some v
  | _ => none

/-- Rust's `as i64` applied to an unsigned value (two's-complement wrap). -/
def i64_of_u64 (n : Nat) : Int :=
  if n % 2 ^ 64 < 2 ^ 63 then (n % 2 ^ 64 : Nat) else (n % 2 ^ 64 : Nat) - 2 ^ 64

/-- The row bound by the `INSERT INTO blocks` statement of `add_block`:
ten columns in schema order, the embedded transaction rendered to text by
the external `serde_json` (abstracted as `R`) or the empty string. -/
def block_to_row (R : Json → List Char) (block : Block) : List Col :=
  [.int (i64_of_u64 block.index),
   .int block.timestamp,
   .text block.chain_name,
   .int (block.version_flags : Int),
   .int (i64_of_u64 block.difficulty),
   .int (block.random : Int),
   .int (i64_of_u64 block.nonce),
   .text (match block.transaction with
          | none => []
          | some t => R t.to_json),
   .blob block.prev_block_hash.data,
   .blob block.hash.data]

/-- The `Blockchain` struct: chain metadata, the in-memory block list, the
cached tip, and the two durable tables (`blocks` rows in `id` order and
`transactions` rows in `id` order). -/
structure Blockchain where
  chain_name : List Char
  version_flags : Nat
  blocks : List Block
  last_block : Option Block
  db_blocks : List (List Col)
  db_transactions : List Transaction
deriving DecidableEq

/-- The `add_transaction` helper: one `INSERT INTO transactions` row. -/
def Blockchain.add_transaction (st : Blockchain) (t : Transaction) : Blockchain :=
  { st with db_transactions := st.db_transactions ++ [t] }

/-- The `add_block` method: validate against the cached tip; on success push
the block, advance the tip, insert the block row and then, if present, the
transaction row; on failure only report (modelled as the identity — the
failure path performs no fallible operation in the source). -/
def Blockchain.add_block (H : Block → Bytes) (R : Json → List Char)
    (st : Blockchain) (block : Block) : Blockchain :=
  if check_block H block st.last_block then
    let st1 : Blockchain :=
      { st with
          blocks := st.blocks ++ [block],
          last_block := some block,
          db_blocks := st.db_blocks ++ [block_to_row R block] }
    match block.transaction with
    | none => st1
    | some t => st1.add_transaction t
  else st

/-- Alias for the table-level availability function, resolvable inside the
`Blockchain` namespace. -/
def txs_domain_available : (List Char → Bytes) → List Transaction → List Char →
    Keystore → Bool :=
  is_domain_available

/-- The `is_domain_available` method on the ledger state: it queries only
the durable `transactions` table. -/
def Blockchain.is_domain_available (Hid : List Char → Bytes) (st : Blockchain)
    (domain : List Char) (keystore : Keystore) : Bool :=
  txs_domain_available Hid st.db_transactions domain keystore

/-- Claim C2: `check_block` accepts a candidate and an optional previous
block exactly when the hash of the candidate's serialization with its
`hash` field reset to the default value equals its stored `hash`, and the
previous block is either absent or has the candidate's `prev_block_hash`
as its own hash — no other field is checked. -/
theorem c2_check_block_spec (H : Block → Bytes) (block : Block) (prev_block : Option Block) :
    check_block H block prev_block = true ↔
      (H { block with hash := Bytes.defaultVal } = block.hash ∧
        (prev_block = none ∨
          ∃ p, prev_block = some p ∧ block.prev_block_hash = p.hash)) :=
  check_block_eq_true_iff H block prev_block

/-- Claim C3: a candidate block that fails validation against the current
tip leaves the entire ledger state — in-memory blocks, cached tip, chain
metadata, and both durable tables — exactly unchanged; `add_block` is total
on this path (the source only prints a report). -/
theorem c3_rejected_block_no_op (H : Block → Bytes) (R : Json → List Char)
    (st : Blockchain) (block : Block)
    (h : check_block H block st.last_block = false) :
    Blockchain.add_block H R st block = st := by
  simp [Blockchain.add_block, h]

/-- Concrete block hash function for witnesses: every serialization hashes
to the default value, so a block is self-consistent iff its stored hash is
the default value. -/
def hashConst : Block → Bytes := fun _ => Bytes.defaultVal

/-- Concrete JSON renderer for witnesses. -/
def renderNil : Json → List Char := fun _ => []

/-- A fresh ledger state as built by `Blockchain::new` before any append. -/
def st_empty : Blockchain := ⟨"test".toList, 1, [], none, [], []⟩

/-- A block whose stored hash does not match its recomputed hash under
`hashConst`. -/
def blk_bad : Block :=
  ⟨0, 0, "test".toList, 1, 10, 2, 3, none, ⟨[]⟩, ⟨[7]⟩⟩

/-- A self-consistent block under `hashConst`, carrying one transaction. -/
def blk_good : Block :=
  ⟨0, 0, "test".toList, 1, 10, 2, 3, some (mkClaim "alice".toList keyOne),
   ⟨[9, 9]⟩, Bytes.defaultVal⟩

/-- Witness for C3 at a concrete input: a block with a wrong self-hash is
rejected and the state is unchanged. -/
theorem c3_rejected_block_no_op_witness :
    check_block hashConst blk_bad st_empty.last_block = false ∧
    Blockchain.add_block hashConst renderNil st_empty blk_bad = st_empty := by
  refine ⟨by decide, ?_⟩
  exact c3_rejected_block_no_op hashConst renderNil st_empty blk_bad (by decide)

lemma add_block_of_pass (H : Block → Bytes) (R : Json → List Char)
    (st : Blockchain) (block : Block)
    (hc : check_block H block st.last_block = true) :
    (Blockchain.add_block H R st block).blocks = st.blocks ++ [block] ∧
    (Blockchain.add_block H R st block).last_block = some block := by
  cases htx : block.transaction <;>
    simp [Blockchain.add_block, hc, Blockchain.add_transaction, htx]

/-- Claim C6: when the ledger has no current tip, any block with a correct
self-hash is accepted, whatever its `prev_block_hash` holds — no linkage
check is performed in the genesis case. -/
theorem c6_genesis_always_accepted (H : Block → Bytes) (R : Json → List Char)
    (st : Blockchain) (block : Block)
    (h1 : st.last_block = none) (h2 : check_block_hash H block = true) :
    (Blockchain.add_block H R st block).blocks = st.blocks ++ [block] ∧
    (Blockchain.add_block H R st block).last_block = some block := by
  have hc : check_block H block st.last_block = true := by
    simp [check_block, h1, h2]
  exact add_block_of_pass H R st block hc

/-- Witness for C6 at a concrete input: a self-consistent block with a
nonzero `prev_block_hash` is accepted by the empty ledger. -/
theorem c6_genesis_always_accepted_witness :
    st_empty.last_block = none ∧
    check_block_hash hashConst blk_good = true ∧
    (Blockchain.add_block hashConst renderNil st_empty blk_good).blocks =
      st_empty.blocks ++ [blk_good] ∧
    (Blockchain.add_block hashConst renderNil st_empty blk_good).last_block =
      some blk_good := by
  refine ⟨by decide, by decide, ?_⟩
  exact c6_genesis_always_accepted hashConst renderNil st_empty blk_good rfl (by decide)

/-- Claim C9: the durable `transactions` table is the only part of the
ledger state that `is_domain_available` reads — two states agreeing on it
answer every availability query identically. -/
theorem c9_domain_query_noninterference (Hid : List Char → Bytes)
    (st1 st2 : Blockchain) (h : st1.db_transactions = st2.db_transactions)
    (domain : List Char) (ks : Keystore) :
    Blockchain.is_domain_available Hid st1 domain ks =
      Blockchain.is_domain_available Hid st2 domain ks := by
  simp [Blockchain.is_domain_available, h]

/-- Witness for C9 at concrete inputs: two states with the same transaction
history but different chain metadata, block lists and tips answer alike. -/
theorem c9_domain_query_noninterference_witness :
    (Blockchain.mk "a".toList 1 [blk_good] (some blk_good)
        [block_to_row renderNil blk_good] [mkClaim "alice".toList keyOne]).db_transactions =
      (Blockchain.mk "b".toList 2 [] none [] [mkClaim "alice".toList keyOne]).db_transactions ∧
    Blockchain.is_domain_available hidC
        (Blockchain.mk "a".toList 1 [blk_good] (some blk_good)
          [block_to_row renderNil blk_good] [mkClaim "alice".toList keyOne])
        "alice".toList ⟨keyTwo⟩ =
      Blockchain.is_domain_available hidC
        (Blockchain.mk "b".toList 2 [] none [] [mkClaim "alice".toList keyOne])
        "alice".toList ⟨keyTwo⟩ := by
  refine ⟨rfl, ?_⟩
  exact c9_domain_query_noninterference hidC _ _ rfl "alice".toList ⟨keyTwo⟩

/-- Well-formedness of the in-memory block sequence: every block passes the
self-hash check and each adjacent pair is hash-linked. -/
def chain_ok (H : Block → Bytes) : List Block → Bool
  | [] => true
  | [b] => check_block_hash H b
  | b1 :: b2 :: rest =>
      check_block_hash H b1 && decide (b2.prev_block_hash = b1.hash) &&
        chain_ok H (b2 :: rest)

/-- Tip coherence: whenever the in-memory sequence is non-empty, the cached
tip is its last element.  (A fresh ledger has an empty sequence, so this
holds at startup even when a stored tip was adopted.) -/
def tip_ok (st : Blockchain) : Bool :=
  match st.blocks.getLast? with
  | none => true
  | some l => st.last_block = some l

/-- Chain well-formedness of a ledger state: sequence well-formedness
together with tip coherence. -/
def chain_wf (H : Block → Bytes) (st : Blockchain) : Prop :=
  chain_ok H st.blocks = true ∧ tip_ok st = true

lemma chain_ok_append (H : Block → Bytes) (b : Block) :
    ∀ xs, chain_ok H xs = true → check_block_hash H b = true →
      (∀ l, xs.getLast? = some l → b.prev_block_hash = l.hash) →
      chain_ok H (xs ++ [b]) = true
  | [] => by
      intro _ hb _
      simpa [chain_ok] using hb
  | [x] => by
      intro hx hb hl
      have h1 : check_block_hash H x = true := by simpa [chain_ok] using hx
      have h2 : b.prev_block_hash = x.hash := hl x (by simp)
      simp [chain_ok, h1, h2, hb]
  | x :: y :: t => by
      intro hx hb hl
      rw [chain_ok] at hx
      simp only [Bool.and_eq_true, decide_eq_true_eq] at hx
      have ih := chain_ok_append H b (y :: t) hx.2 hb
        (fun l hll => hl l (by rwa [List.getLast?_cons_cons]))
      show chain_ok H (x :: ((y :: t) ++ [b])) = true
      rw [List.cons_append, chain_ok]
      simp [hx.1.1, hx.1.2]
      exact ih

/-- Claim C5: chain well-formedness — every accepted block's stored hash
matches its recomputed hash and adjacent accepted blocks are hash-linked —
is preserved by `add_block` (with the tip-coherence invariant that the
cached tip is the last accepted block, which a fresh ledger satisfies). -/
theorem c5_chain_wf_preserved (H : Block → Bytes) (R : Json → List Char)
    (st : Blockchain) (block : Block) (h : chain_wf H st) :
    chain_wf H (Blockchain.add_block H R st block) := by
  by_cases hc : check_block H block st.last_block = true
  · obtain ⟨hblocks, hlast⟩ := add_block_of_pass H R st block hc
    obtain ⟨hhash, hlink⟩ := (check_block_eq_true_iff H block st.last_block).mp hc
    have hbh : check_block_hash H block = true := by
      simp [check_block_hash, hhash]
    constructor
    · rw [chain_wf] at h
      show chain_ok H (Blockchain.add_block H R st block).blocks = true
      rw [hblocks]
      refine chain_ok_append H block st.blocks h.1 hbh ?_
      intro l hll
      have htip : st.last_block = some l := by
        have h2 := h.2
        rw [tip_ok, hll] at h2
        simpa using h2
      rcases hlink with hnone | ⟨p, hp, hprev⟩
      · rw [htip] at hnone
        cases hnone
      · rw [htip] at hp
        cases hp
        exact hprev
    · show tip_ok (Blockchain.add_block H R st block) = true
      rw [tip_ok, hblocks, List.getLast?_concat, hlast]
      simp
  · have hc' : check_block H block st.last_block = false := by
      simpa using hc
    have : Blockchain.add_block H R st block = st := by
      simp [Blockchain.add_block, hc']
    rw [this]
    exact h

/-- Witness for C5 at a concrete input: appending a self-consistent block
to the well-formed empty ledger preserves well-formedness. -/
theorem c5_chain_wf_preserved_witness :
    chain_wf hashConst st_empty ∧
    chain_wf hashConst (Blockchain.add_block hashConst renderNil st_empty blk_good) := by
  have h0 : chain_wf hashConst st_empty := by
    constructor <;> decide
  exact ⟨h0, c5_chain_wf_preserved hashConst renderNil st_empty blk_good h0⟩

/-- Rust's `as u64` applied to an `i64` (two's-complement reinterpretation). -/
def u64_of_i64 (i : Int) : Nat := (i.emod (2 ^ 64)).toNat

/-- Rust's `as u32` applied to an `i64` (truncating reinterpretation). -/
def u32_of_i64 (i : Int) : Nat := (i.emod (2 ^ 32)).toNat

/-- The `get_block_from_statement` function: ten typed column reads, each
`.unwrap()`ed — any failed read is a panic, modelled as `.error ()`; when
every read succeeds the function unconditionally returns `some` block (the
transaction text is decoded by the external `serde_json` codec `P`, a
failure there silently yielding a block without a transaction).  Note that
`.ok none` is never produced. -/
def get_block_from_statement (P : List Char → Option Transaction)
    (row : List Col) : Except Unit (Option Block) :=
  match read_int row 0, read_int row 1, read_text row 2, read_int row 3,
        read_int row 4, read_int row 5, read_int row 6, read_text row 7,
        read_blob row 8, read_blob row 9 with
  | some index, some timestamp, some chain_name, some version_flags,
    some difficulty, some random, some nonce, some txt, some prev, some h =>
      .ok (some (Block.from_all_params (u64_of_i64 index) timestamp chain_name
        (u32_of_i64 version_flags) (u64_of_i64 difficulty) (u32_of_i64 random)
        (u64_of_i64 nonce) ⟨prev⟩ ⟨h⟩ (P txt)))
  | _, _, _, _, _, _, _, _, _, _ => .error ()

/-- The `init_db` method.  `dbq` models the outcome of preparing and running
the startup query `SELECT * FROM blocks ORDER BY id DESC LIMIT 1`: `none`
when the statement cannot be prepared (no schema yet — the `Err` branch,
which creates the schema), `some none` when it runs and returns no row, and
`some (some row)` when it returns the most recent row.  The returned `Bool`
records whether the schema-creation DDL was executed; `.error` models a
panic (a failed `unwrap`) aborting startup. -/
def Blockchain.init_db (P : List Char → Option Transaction)
    (dbq : Option (Option (List Col))) (st : Blockchain) :
    Except Unit (Blockchain × Bool) :=
  match dbq with
  | none => .ok (st, true)
  | some none => .ok (st, false)
  | some (some row) =>
      match get_block_from_statement P row with
      | .error e => .error e
      | .ok none => .ok (st, false)
      | .ok (some block) =>
          .ok ({ st with chain_name := block.chain_name,
                         version_flags := block.version_flags,
                         last_block := some block }, false)

/-- Claim C7 names a bug: the report-and-continue path for an undecodable
stored row (`get_block_from_statement` returning `None`, handled by
`init_db` with a diagnostic) is unreachable — the function returns `Some`
unconditionally — while an actually failing column read (here a NULL in
the `chain_name` column) is an unwrapped error, i.e. a panic that aborts
startup instead of being reported and survived. -/
theorem c7_malformed_row_is_fatal :
    (∀ (P : List Char → Option Transaction) (row : List Col),
      get_block_from_statement P row ≠ .ok none) ∧
    get_block_from_statement (fun _ => none)
      [Col.int 1, Col.int 0, Col.null, Col.int 0, Col.int 0, Col.int 0,
       Col.int 0, Col.text [], Col.blob [], Col.blob []] = .error () := by
  constructor
  · intro P row h
    unfold get_block_from_statement at h
    split at h <;> simp_all
  · rfl

/-- Claim C8 as frozen is false on the code: with an existing schema whose
`blocks` table is empty, the startup query is prepared and finds no row,
yet the schema-creation DDL is not executed (it only runs when `prepare`
fails); the state is kept with no tip and the created-flag is `false`. -/
theorem c8_counterexample :
    Blockchain.init_db (fun _ => none) (some none) st_empty = .ok (st_empty, false) ∧
    Blockchain.init_db (fun _ => none) (some none) st_empty ≠ .ok (st_empty, true) := by
  constructor
  · rfl
  · intro h
    simp [Blockchain.init_db] at h

/-- Claim C8 (amended): when the startup query returns a row that decodes
to a block, `init_db` adopts it as the tip and overwrites `chain_name` and
`version_flags` with the stored block's values, discarding the
caller-supplied ones; when the query cannot be prepared (schema missing),
the schema is created and the caller-supplied values are kept with the
constructor's empty tip; when the schema exists but holds no row, the
values are kept and the schema is not re-created. -/
theorem c8_startup_recovery (P : List Char → Option Transaction) (st : Blockchain) :
    (∀ (row : List Col) (block : Block),
        get_block_from_statement P row = .ok (some block) →
        Blockchain.init_db P (some (some row)) st =
          .ok ({ st with chain_name := block.chain_name,
                         version_flags := block.version_flags,
                         last_block := some block }, false)) ∧
    Blockchain.init_db P none st = .ok (st, true) ∧
    Blockchain.init_db P (some none) st = .ok (st, false) := by
  refine ⟨?_, rfl, rfl⟩
  intro row block hrow
  simp [Blockchain.init_db, hrow]

/-- The transaction-text codec that always fails, standing in for
`serde_json::from_str` on the empty string. -/
def parseNone : List Char → Option Transaction := fun _ => none

/-- A well-typed stored row for the C8 witness. -/
def rowGood : List Col :=
  [.int 5, .int 7, .text "stored".toList, .int 9, .int 10, .int 2, .int 3,
   .text [], .blob [], .blob [(6 : Fin 256)]]

/-- The block `rowGood` decodes to. -/
def blkDecoded : Block :=
  ⟨5, 7, "stored".toList, 9, 10, 2, 3, none, ⟨[]⟩, ⟨[(6 : Fin 256)]⟩⟩

/-- Witness for the amended C8 at a concrete input: the stored row's
metadata wins over the caller-supplied configuration. -/
theorem c8_startup_recovery_witness :
    get_block_from_statement parseNone rowGood = .ok (some blkDecoded) ∧
    Blockchain.init_db parseNone (some (some rowGood)) st_empty =
      .ok ({ st_empty with chain_name := blkDecoded.chain_name,
                           version_flags := blkDecoded.version_flags,
                           last_block := some blkDecoded }, false) := by
  have hrow : get_block_from_statement parseNone rowGood = .ok (some blkDecoded) := by
    rfl
  exact ⟨hrow, (c8_startup_recovery parseNone st_empty).1 rowGood blkDecoded hrow⟩

/-- Witness for C2 at a concrete input: a self-consistent genesis candidate
is accepted via the right-to-left direction of the characterization. -/
theorem c2_check_block_spec_witness :
    check_block hashConst blk_good none = true :=
  (c2_check_block_spec hashConst blk_good none).mpr ⟨rfl, Or.inl rfl⟩

/-- Witness for C7 at a concrete input: the decoder never takes the
report-and-continue path on the given well-typed row either. -/
theorem c7_malformed_row_is_fatal_witness :
    get_block_from_statement parseNone rowGood ≠ Except.ok none :=
  c7_malformed_row_is_fatal.1 parseNone rowGood
